import Mathlib

/-!
Verification of the ERCOT data-normalization and rolling-CV core.

Shallow embedding conventions:
* timestamps and calendar dates are integers (minutes since an arbitrary
  epoch for timestamps; days for calendar dates);
* strings are modelled as `String` / `List Char`, with ASCII case semantics
  for Python's `str.isupper` / `str.capitalize` / `str.lower`;
* pandas DataFrames are lists of records; fallible code returns `Except`.
-/

namespace Ercot

/-! ## ASCII character helpers (Python `str` case semantics, ASCII fragment) -/

/-- ASCII uppercase test, Python `c.isupper()` for ASCII input. -/
def isUpperA (c : Char) : Bool := 'A' ≤ c && c ≤ 'Z'

/-- ASCII lowercase test, Python `c.islower()` for ASCII input. -/
def isLowerA (c : Char) : Bool := 'a' ≤ c && c ≤ 'z'

/-- ASCII digit test, the `[0-9]` character class. -/
def isDigitA (c : Char) : Bool := '0' ≤ c && c ≤ '9'

/-- ASCII upper-casing of one character (Python `str.upper` per char). -/
def upperChar (c : Char) : Char :=
  match c with
  | 'a' => 'A' | 'b' => 'B' | 'c' => 'C' | 'd' => 'D' | 'e' => 'E' | 'f' => 'F'
  | 'g' => 'G' | 'h' => 'H' | 'i' => 'I' | 'j' => 'J' | 'k' => 'K' | 'l' => 'L'
  | 'm' => 'M' | 'n' => 'N' | 'o' => 'O' | 'p' => 'P' | 'q' => 'Q' | 'r' => 'R'
  | 's' => 'S' | 't' => 'T' | 'u' => 'U' | 'v' => 'V' | 'w' => 'W' | 'x' => 'X'
  | 'y' => 'Y' | 'z' => 'Z'
  | c => c

/-- ASCII lower-casing of one character (Python `str.lower` per char). -/
def lowerChar (c : Char) : Char :=
  match c with
  | 'A' => 'a' | 'B' => 'b' | 'C' => 'c' | 'D' => 'd' | 'E' => 'e' | 'F' => 'f'
  | 'G' => 'g' | 'H' => 'h' | 'I' => 'i' | 'J' => 'j' | 'K' => 'k' | 'L' => 'l'
  | 'M' => 'm' | 'N' => 'n' | 'O' => 'o' | 'P' => 'p' | 'Q' => 'q' | 'R' => 'r'
  | 'S' => 's' | 'T' => 't' | 'U' => 'u' | 'V' => 'v' | 'W' => 'w' | 'X' => 'x'
  | 'Y' => 'y' | 'Z' => 'z'
  | c => c

/-! ## Column normalizer (`src/server/utils.py`, `normalize_column_names` /
inner `to_pascal_case`), on column names as `List Char`. -/

/-- Embedding of `name.replace("-", "_").replace(" ", "_")` at one character. -/
def replaceSep (c : Char) : Char :=
  if c = '-' then '_' else if c = ' ' then '_' else c

/-- Embedding of `re.sub('([a-z0-9])([A-Z])', r'\1_\2', name)`: insert `_`
between a lowercase-or-digit character and an uppercase character.  After a
match the scan resumes at the uppercase character, which can never start a
new match, so plain recursion over adjacent pairs is equivalent. -/
def camelSub : List Char → List Char
  | [] => []
  | [a] => [a]
  | a :: b :: rest =>
    if (isLowerA a || isDigitA a) && isUpperA b then a :: '_' :: camelSub (b :: rest)
    else a :: camelSub (b :: rest)

/-- Embedding of Python `name.split('_')` (keeps empty segments). -/
def splitUnd : List Char → List (List Char)
  | [] => [[]]
  | c :: rest =>
    let r := splitUnd rest
    if c = '_' then [] :: r
    else (c :: r.headD []) :: r.tail

/-- Embedding of Python `part.capitalize()`: first character upper-cased,
all remaining characters lower-cased. -/
def capitalizeP : List Char → List Char
  | [] => []
  | c :: rest => upperChar c :: rest.map lowerChar

/-- Embedding of the condition
`name and name[0].isupper() and "_" not in name.lower()`. -/
def isPascalReady (name : List Char) : Bool :=
  !name.isEmpty && isUpperA (name.headD ' ') && !(name.map lowerChar).contains '_'

/-- Embedding of `to_pascal_case` (src/server/utils.py lines 36-52): replace
separators, early-return on already-PascalCase names, otherwise split camelCase
boundaries and underscores, capitalize each nonempty part and concatenate. -/
def to_pascal_case (name0 : List Char) : List Char :=
  if isPascalReady (name0.map replaceSep) then name0.map replaceSep
  else
    (((splitUnd (camelSub (name0.map replaceSep))).filter
      (fun p => p ≠ [])).map capitalizeP).flatten

/-- Embedding of `normalize_column_names` on the list of column names of the
copied frame (src/server/utils.py line 54). -/
def normalize_column_names (cols : List (List Char)) : List (List Char) :=
  cols.map to_pascal_case

-- Concrete sanity checks of the embedding.
example : to_pascal_case "9_b_c".data = "9BC".data := by decide
example : to_pascal_case "9BC".data = "9Bc".data := by decide
example : to_pascal_case "hello_world".data = "HelloWorld".data := by decide
example : to_pascal_case "settlementPointPrice".data = "SettlementPointPrice".data := by decide
example : to_pascal_case "Hour Ending".data = "HourEnding".data := by decide

/-! ### Character-level facts for the normalizer -/

theorem replaceSep_ne_hyphen_space (c : Char) :
    replaceSep c ≠ '-' ∧ replaceSep c ≠ ' ' := by
  unfold replaceSep
  split <;> [skip; split] <;> simp_all

theorem upperChar_ne_sep {c : Char} (h1 : c ≠ '_') (h2 : c ≠ '-') (h3 : c ≠ ' ') :
    upperChar c ≠ '_' ∧ upperChar c ≠ '-' ∧ upperChar c ≠ ' ' := by
  unfold upperChar
  split <;> first
    | exact ⟨h1, h2, h3⟩
    | exact ⟨by decide, by decide, by decide⟩

theorem lowerChar_ne_sep {c : Char} (h1 : c ≠ '_') (h2 : c ≠ '-') (h3 : c ≠ ' ') :
    lowerChar c ≠ '_' ∧ lowerChar c ≠ '-' ∧ lowerChar c ≠ ' ' := by
  unfold lowerChar
  split <;> first
    | exact ⟨h1, h2, h3⟩
    | exact ⟨by decide, by decide, by decide⟩

theorem eq_underscore_of_lowerChar {c : Char} (h : lowerChar c = '_') : c = '_' := by
  unfold lowerChar at h
  split at h <;> simp_all

/-! ### Membership facts for the normalizer pipeline -/

theorem mem_camelSub : ∀ l, ∀ c ∈ camelSub l, c ∈ l ∨ c = '_'
  | [] => by simp [camelSub]
  | [a] => by simp [camelSub]
  | a :: b :: rest => by
    intro c hc
    rw [camelSub] at hc
    split at hc
    · rcases List.mem_cons.1 hc with rfl | hc
      · exact Or.inl (List.mem_cons_self ..)
      rcases List.mem_cons.1 hc with rfl | hc
      · exact Or.inr rfl
      · rcases mem_camelSub (b :: rest) c hc with h' | h'
        · exact Or.inl (List.mem_cons_of_mem _ h')
        · exact Or.inr h'
    · rcases List.mem_cons.1 hc with rfl | hc
      · exact Or.inl (List.mem_cons_self ..)
      · rcases mem_camelSub (b :: rest) c hc with h' | h'
        · exact Or.inl (List.mem_cons_of_mem _ h')
        · exact Or.inr h'

theorem splitUnd_ne_nil (l : List Char) : splitUnd l ≠ [] := by
  cases l with
  | nil => simp [splitUnd]
  | cons c rest =>
    rw [splitUnd]
    split <;> simp

theorem mem_splitUnd : ∀ l, ∀ p ∈ splitUnd l, ∀ c ∈ p, c ∈ l ∧ c ≠ '_'
  | [] => by
    intro p hp c hc
    simp [splitUnd] at hp
    subst hp
    simp at hc
  | a :: rest => by
    intro p hp c hc
    rw [splitUnd] at hp
    by_cases ha : a = '_'
    · rw [if_pos ha] at hp
      rcases List.mem_cons.1 hp with rfl | hp
      · simp at hc
      · have := mem_splitUnd rest p hp c hc
        exact ⟨List.mem_cons_of_mem _ this.1, this.2⟩
    · rw [if_neg ha] at hp
      rcases List.mem_cons.1 hp with rfl | hp
      · rcases List.mem_cons.1 hc with rfl | hc
        · exact ⟨List.mem_cons_self .., ha⟩
        · rcases hr : splitUnd rest with _ | ⟨h0, t0⟩
          · exact absurd hr (splitUnd_ne_nil rest)
          · rw [hr] at hc
            simp only [List.headD_cons] at hc
            have := mem_splitUnd rest h0 (by rw [hr]; exact List.mem_cons_self ..) c hc
            exact ⟨List.mem_cons_of_mem _ this.1, this.2⟩
      · have hpr : p ∈ splitUnd rest := List.mem_of_mem_tail hp
        have := mem_splitUnd rest p hpr c hc
        exact ⟨List.mem_cons_of_mem _ this.1, this.2⟩

theorem mem_capitalizeP {p : List Char} {c : Char} (hc : c ∈ capitalizeP p) :
    ∃ d ∈ p, c = upperChar d ∨ c = lowerChar d := by
  cases p with
  | nil => simp [capitalizeP] at hc
  | cons d rest =>
    rw [capitalizeP] at hc
    rcases List.mem_cons.1 hc with rfl | hc
    · exact ⟨d, List.mem_cons_self .., Or.inl rfl⟩
    · rcases List.mem_map.1 hc with ⟨d', hd', hdc⟩
      exact ⟨d', List.mem_cons_of_mem _ hd', Or.inr hdc.symm⟩

/-- Every character of a normalized column name is a non-separator: the output
contains no underscore, hyphen, or space. -/
theorem to_pascal_case_chars (name0 : List Char) :
    ∀ c ∈ to_pascal_case name0, c ≠ '_' ∧ c ≠ '-' ∧ c ≠ ' ' := by
  intro c hc
  unfold to_pascal_case at hc
  split at hc
  case isTrue hready =>
    rcases List.mem_map.1 hc with ⟨c0, hc0, rfl⟩
    refine ⟨?_, (replaceSep_ne_hyphen_space c0).1, (replaceSep_ne_hyphen_space c0).2⟩
    intro hund
    unfold isPascalReady at hready
    simp only [Bool.and_eq_true, Bool.not_eq_true'] at hready
    have hmem : '_' ∈ (name0.map replaceSep).map lowerChar :=
      List.mem_map.2 ⟨replaceSep c0, List.mem_map.2 ⟨c0, hc0, rfl⟩, by rw [hund]; decide⟩
    have helem : ((name0.map replaceSep).map lowerChar).contains '_' = true :=
      List.elem_eq_true_of_mem hmem
    rw [hready.2] at helem
    exact Bool.false_ne_true helem
  case isFalse =>
    rcases List.mem_flatten.1 hc with ⟨cap, hcap, hccap⟩
    rcases List.mem_map.1 hcap with ⟨p, hp, rfl⟩
    have hpmem := (List.mem_filter.1 hp).1
    rcases mem_capitalizeP hccap with ⟨d, hd, hcd⟩
    have hdprop := mem_splitUnd _ p hpmem d hd
    have hdin : d ∈ name0.map replaceSep ∨ d = '_' := mem_camelSub _ d hdprop.1
    have hdu : d ≠ '_' := hdprop.2
    have hdins : d ∈ name0.map replaceSep := hdin.resolve_right hdu
    rcases List.mem_map.1 hdins with ⟨d0, _, rfl⟩
    have hdh := (replaceSep_ne_hyphen_space d0).1
    have hds := (replaceSep_ne_hyphen_space d0).2
    rcases hcd with rfl | rfl
    · exact upperChar_ne_sep hdu hdh hds
    · exact lowerChar_ne_sep hdu hdh hds

/-- A list on which a function is pointwise the identity is fixed by `map`. -/
theorem map_id_of {α : Type} {f : α → α} :
    ∀ l : List α, (∀ c ∈ l, f c = c) → l.map f = l := by
  intro l h
  induction l with
  | nil => rfl
  | cons a t ih =>
    simp only [List.map_cons]
    rw [h a (List.mem_cons_self ..), ih (fun c hc => h c (List.mem_cons_of_mem _ hc))]

/-- A nonempty name made of non-separator characters whose first character is
an uppercase letter is a fixed point of `to_pascal_case` (it takes the
early-return branch). -/
theorem to_pascal_case_stable (out : List Char)
    (hhead : isUpperA (out.headD ' ') = true)
    (hchars : ∀ c ∈ out, c ≠ '_' ∧ c ≠ '-' ∧ c ≠ ' ') :
    to_pascal_case out = out := by
  have hne : out ≠ [] := by
    rintro rfl
    exact absurd hhead (by decide)
  have hmap : out.map replaceSep = out :=
    map_id_of _ (fun c hc => by
      rcases hchars c hc with ⟨h1, h2, h3⟩
      unfold replaceSep
      rw [if_neg h2, if_neg h3])
  have hready : isPascalReady (out.map replaceSep) = true := by
    rw [hmap]
    unfold isPascalReady
    simp only [Bool.and_eq_true, Bool.not_eq_true']
    refine ⟨⟨?_, hhead⟩, ?_⟩
    · cases out with
      | nil => exact absurd rfl hne
      | cons a l => rfl
    · cases hcon : (out.map lowerChar).contains '_' with
      | false => rfl
      | true =>
        have hmem : '_' ∈ out.map lowerChar := List.elem_iff.1 hcon
        rcases List.mem_map.1 hmem with ⟨c, hcmem, heq⟩
        exact absurd (eq_underscore_of_lowerChar heq) (hchars c hcmem).1
  unfold to_pascal_case
  rw [hready]
  simpa using hmap

/-- Claim C4 (counterexample): column normalization is not idempotent.  The
column name `9_b_c` normalizes to `9BC`, and normalizing again yields `9Bc`:
the camelCase splitter re-splits at the digit/uppercase boundary `9B` and
`capitalize` then lower-cases the rest of the merged part. -/
theorem C4_normalize_idempotent_counterexample :
    ¬ (to_pascal_case (to_pascal_case "9_b_c".data) = to_pascal_case "9_b_c".data ∧
       normalize_column_names (normalize_column_names ["9_b_c".data]) =
         normalize_column_names ["9_b_c".data]) := by
  decide

/-- Claim C4 (amended): column normalization is idempotent for every column
name whose normalized form begins with an uppercase ASCII letter (which holds
in particular for every name beginning with a letter); a table all of whose
normalized column names begin with uppercase letters normalizes
idempotently.  Names whose normalized form begins with a digit or symbol can
break idempotence (see the counterexample `9_b_c`). -/
theorem C4_normalize_idempotent_amended :
    (∀ name, isUpperA ((to_pascal_case name).headD ' ') = true →
        to_pascal_case (to_pascal_case name) = to_pascal_case name) ∧
    (∀ cols, (∀ name ∈ cols, isUpperA ((to_pascal_case name).headD ' ') = true) →
        normalize_column_names (normalize_column_names cols) =
          normalize_column_names cols) := by
  constructor
  · intro name h
    exact to_pascal_case_stable _ h (to_pascal_case_chars name)
  · intro cols h
    unfold normalize_column_names
    rw [List.map_map]
    exact List.map_congr_left (fun name hname =>
      to_pascal_case_stable _ (h name hname) (to_pascal_case_chars name))

/-- Witness for the amended claim C4 at the concrete column name
`hello_world`. -/
theorem C4_normalize_idempotent_amended_witness :
    isUpperA ((to_pascal_case "hello_world".data).headD ' ') = true ∧
    to_pascal_case (to_pascal_case "hello_world".data) =
      to_pascal_case "hello_world".data ∧
    normalize_column_names (normalize_column_names ["hello_world".data]) =
      normalize_column_names ["hello_world".data] := by
  refine ⟨by decide, C4_normalize_idempotent_amended.1 "hello_world".data (by decide),
    C4_normalize_idempotent_amended.2 ["hello_world".data] ?_⟩
  intro name hname
  rcases List.mem_cons.1 hname with rfl | hname
  · decide
  · simp at hname

/-! ## Cell values and datetime resolution (`src/server/utils.py`) -/

/-- A scalar cell value: a datetime-parseable value (carried as minutes since
an arbitrary epoch), a numeric value, or a non-datetime string. -/
inductive Val where
  | dt (t : Int)
  | num (n : Int)
  | str (s : String)
deriving DecidableEq

/-- A row of a normalized frame: an association of column names with values;
a column is present in the frame iff it has a binding here. -/
abbrev Row := List (String × Val)

/-- `pd.to_datetime` on one cell: succeeds exactly on datetime-parseable
values. -/
def toDatetimeVal : Val → Option Int
  | .dt t => some t
  | _ => none

/-- Numeric reading of a cell, for `pd.to_timedelta` on hour and interval
columns. -/
def toNumVal : Val → Option Int
  | .num n => some n
  | _ => none

/-- Digit-string reading, the core of Python `int(...)` on a string of
digits. -/
def parseNatChars (cs : List Char) : Option Nat :=
  if cs ≠ [] ∧ cs.all isDigitA then
    some (cs.foldl (fun a c => a * 10 + (c.toNat - 48)) 0)
  else none

/-- Python `int(...)` on a string: optional sign followed by digits. -/
def parseIntChars : List Char → Option Int
  | '-' :: rest => (parseNatChars rest).map (fun n => -(n : Int))
  | '+' :: rest => (parseNatChars rest).map (fun n => (n : Int))
  | cs => (parseNatChars cs).map (fun n => (n : Int))

/-- The integer hour component before the first colon, Python
`int(hour_ending.split(":")[0])`. -/
def hourComponent (s : String) : Option Int :=
  parseIntChars (s.data.takeWhile (fun c => c ≠ ':'))

/-- Embedding of `parse_hour_ending` (src/server/utils.py lines 58-85).
Timestamps are minutes, so one hour is 60 and one day 1440.  `none` models a
raised parse error. -/
def parse_hour_ending (date : Int) (hour_ending : Val) : Option Int :=
  match hour_ending with
  | .str s =>
    if s = "24:00" then some (date + 1440 - 60)
    else (hourComponent s).map (fun h => date + h * 60 - 60)
  | .num n => some (date + n * 60 - 60)
  | .dt _ => none

/-- Per-row outcome of `add_datetime_column`. -/
inductive DtResult where
  | withDt (t : Int)
  | noDt
  | keyError
  | badValue
deriving DecidableEq

/-- Shared body of patterns 3, 4 and 6: hour-ending resolution of a base-date
column.  Both columns are known present when this is reached, so the
`keyError` arm is unreachable under the pattern guards. -/
def hourEndingResult (base he : Option Val) : DtResult :=
  match base, he with
  | some bv, some hev =>
    match toDatetimeVal bv with
    | some d =>
      match parse_hour_ending d hev with
      | some t => .withDt t
      | none => .badValue
    | none => .badValue
  | _, _ => .keyError

/-- Embedding of `add_datetime_column` (src/server/utils.py lines 88-177) at
one row: the seven encoding patterns checked in priority order, first match
wins; `noDt` is the warn-and-omit path, `keyError` a missing required column
inside pattern 1. -/
def add_datetime_column (row : Row) : DtResult :=
  if (row.lookup "DeliveryInterval").isSome then
    match row.lookup "DeliveryDate", row.lookup "DeliveryHour" with
    | some dv, some hv =>
      match toDatetimeVal dv, toNumVal hv,
        (row.lookup "DeliveryInterval").bind toNumVal with
      | some d, some h, some iv => .withDt (d + h * 60 + iv * 5)
      | _, _, _ => .badValue
    | _, _ => .keyError
  else if (row.lookup "IntervalEnding").isSome then
    match (row.lookup "IntervalEnding").bind toDatetimeVal with
    | some t => .withDt t
    | none => .badValue
  else if (row.lookup "OperatingDay").isSome && (row.lookup "HourEnding").isSome then
    hourEndingResult (row.lookup "OperatingDay") (row.lookup "HourEnding")
  else if (row.lookup "OperatingDate").isSome && (row.lookup "HourEnding").isSome then
    hourEndingResult (row.lookup "OperatingDate") (row.lookup "HourEnding")
  else if (row.lookup "DeliveryHour").isSome && (row.lookup "DeliveryDate").isSome then
    match (row.lookup "DeliveryDate").bind toDatetimeVal,
      (row.lookup "DeliveryHour").bind toNumVal with
    | some d, some h => .withDt (d + h * 60)
    | _, _ => .badValue
  else if (row.lookup "DeliveryDate").isSome && (row.lookup "HourEnding").isSome then
    hourEndingResult (row.lookup "DeliveryDate") (row.lookup "HourEnding")
  else if (row.lookup "SCEDTimestamp").isSome then
    match (row.lookup "SCEDTimestamp").bind toDatetimeVal with
    | some t => .withDt t
    | none => .badValue
  else if (row.lookup "SCEDTimeStamp").isSome then
    match (row.lookup "SCEDTimeStamp").bind toDatetimeVal with
    | some t => .withDt t
    | none => .badValue
  else .noDt

-- Concrete sanity checks of the embedding.
example : hourComponent "13:00" = some 13 := by decide
example : parse_hour_ending 0 (Val.str "24:00") = some 1380 := by decide
example : add_datetime_column [("DeliveryInterval", Val.num 1)] = .keyError := by decide

/-- Claim C2: hour-ending resolution.  An integer hour-ending `n` resolves to
`base + (n - 1)` hours; the literal string `"24:00"` resolves to 23:00 on the
base date (not midnight of the next day); any other time string resolves to
`base + (H - 1)` hours where `H` is the integer hour component before the
colon.  The three concrete examples of the spec are instantiated at an
arbitrary base date `d` standing for 2024-01-01T00:00 (timestamps in
minutes). -/
theorem C2_hour_ending_resolution :
    (∀ (d n : Int), parse_hour_ending d (.num n) = some (d + (n - 1) * 60)) ∧
    (∀ d : Int, parse_hour_ending d (.str "24:00") = some (d + 23 * 60)) ∧
    (∀ (d h : Int) (s : String), s ≠ "24:00" → hourComponent s = some h →
        parse_hour_ending d (.str s) = some (d + (h - 1) * 60)) ∧
    (∀ d : Int, parse_hour_ending d (.num 1) = some d) ∧
    (∀ d : Int, parse_hour_ending d (.str "13:00") = some (d + 12 * 60)) := by
  refine ⟨?_, ?_, ?_, ?_, ?_⟩
  · intro d n
    simp only [parse_hour_ending, Option.some.injEq]
    ring
  · intro d
    norm_num [parse_hour_ending]
    omega
  · intro d h s hs hcomp
    simp only [parse_hour_ending, if_neg hs, hcomp, Option.map_some', Option.some.injEq]
    ring
  · intro d
    simp only [parse_hour_ending, Option.some.injEq]
    ring
  · intro d
    simp only [parse_hour_ending,
      if_neg (show ("13:00" : String) ≠ "24:00" by decide),
      show hourComponent "13:00" = some 13 from by decide,
      Option.map_some', Option.some.injEq]
    ring

/-- Witness for claim C2 at base date 0 and the hour string `"13:00"`. -/
theorem C2_hour_ending_resolution_witness :
    ("13:00" : String) ≠ "24:00" ∧ hourComponent "13:00" = some 13 ∧
    parse_hour_ending 0 (.str "13:00") = some ((0 : Int) + (13 - 1) * 60) :=
  ⟨by decide, by decide,
    C2_hour_ending_resolution.2.2.1 0 13 "13:00" (by decide) (by decide)⟩

/-- Claim C3: pattern priority of the timestamp resolver.  (1) a row with
both `DeliveryInterval` and `SCEDTimestamp` resolves via pattern 1
(`DeliveryDate + DeliveryHour hours + DeliveryInterval * 5 minutes`), not by
parsing `SCEDTimestamp`; (2) `DeliveryDate + DeliveryHour` without an
interval resolves hour-beginning, with no minus-one-hour adjustment;
(3) `DeliveryDate + HourEnding` (no `DeliveryHour`) resolves hour-ending;
(4) when no pattern matches, the row gets no DATETIME and the outcome is the
non-fatal warning path. -/
theorem C3_pattern_priority :
    (∀ (row : Row) (d h iv : Int) (sv : Val),
        row.lookup "DeliveryDate" = some (.dt d) →
        row.lookup "DeliveryHour" = some (.num h) →
        row.lookup "DeliveryInterval" = some (.num iv) →
        row.lookup "SCEDTimestamp" = some sv →
        add_datetime_column row = .withDt (d + h * 60 + iv * 5)) ∧
    (∀ (row : Row) (d h : Int),
        row.lookup "DeliveryInterval" = none →
        row.lookup "IntervalEnding" = none →
        row.lookup "OperatingDay" = none →
        row.lookup "OperatingDate" = none →
        row.lookup "DeliveryDate" = some (.dt d) →
        row.lookup "DeliveryHour" = some (.num h) →
        add_datetime_column row = .withDt (d + h * 60)) ∧
    (∀ (row : Row) (d t : Int) (he : Val),
        row.lookup "DeliveryInterval" = none →
        row.lookup "IntervalEnding" = none →
        row.lookup "OperatingDay" = none →
        row.lookup "OperatingDate" = none →
        row.lookup "DeliveryHour" = none →
        row.lookup "DeliveryDate" = some (.dt d) →
        row.lookup "HourEnding" = some he →
        parse_hour_ending d he = some t →
        add_datetime_column row = .withDt t) ∧
    (∀ row : Row,
        row.lookup "DeliveryInterval" = none →
        row.lookup "IntervalEnding" = none →
        row.lookup "OperatingDay" = none →
        row.lookup "OperatingDate" = none →
        row.lookup "DeliveryHour" = none →
        (row.lookup "DeliveryDate" = none ∨ row.lookup "HourEnding" = none) →
        row.lookup "SCEDTimestamp" = none →
        row.lookup "SCEDTimeStamp" = none →
        add_datetime_column row = .noDt) := by
  refine ⟨?_, ?_, ?_, ?_⟩
  · intro row d h iv sv hd hh hiv _
    unfold add_datetime_column
    rw [hd, hh, hiv]
    simp [toDatetimeVal, toNumVal]
  · intro row d h hiv hie hod hodate hd hh
    unfold add_datetime_column
    rw [hiv, hie, hod, hodate, hd, hh]
    simp [toDatetimeVal, toNumVal]
  · intro row d t he hiv hie hod hodate hdh hd hhe hphe
    unfold add_datetime_column
    rw [hiv, hie, hod, hodate, hdh, hd, hhe]
    simp [hourEndingResult, toDatetimeVal, hphe]
  · intro row hiv hie hod hodate hdh hd6 hsced1 hsced2
    unfold add_datetime_column
    rcases hd6 with hd | hhe
    · rw [hiv, hie, hod, hodate, hdh, hd, hsced1, hsced2]
      simp
    · rw [hiv, hie, hod, hodate, hdh, hhe, hsced1, hsced2]
      simp

/-- Witness for claim C3: a concrete row holding `DeliveryDate`,
`DeliveryHour`, `DeliveryInterval` and `SCEDTimestamp` resolves via pattern 1,
and a concrete `DeliveryDate`+`DeliveryHour` row resolves hour-beginning. -/
theorem C3_pattern_priority_witness :
    add_datetime_column
      [("DeliveryDate", Val.dt 0), ("DeliveryHour", Val.num 2),
       ("DeliveryInterval", Val.num 3), ("SCEDTimestamp", Val.dt 999)] =
      .withDt ((0 : Int) + 2 * 60 + 3 * 5) ∧
    add_datetime_column [("DeliveryDate", Val.dt 1440), ("DeliveryHour", Val.num 5)] =
      .withDt ((1440 : Int) + 5 * 60) :=
  ⟨C3_pattern_priority.1 _ 0 2 3 (Val.dt 999) (by decide) (by decide) (by decide) (by decide),
   C3_pattern_priority.2.1 _ 1440 5 (by decide) (by decide) (by decide) (by decide)
     (by decide) (by decide)⟩

/-- Claim C10: pattern 1 of the timestamp resolver is triggered by the
presence of the `DeliveryInterval` column alone; a normalized row having
`DeliveryInterval` but lacking `DeliveryDate` or `DeliveryHour` raises a
`KeyError` rather than falling through to a later pattern or to the
warn-and-omit path. -/
theorem C10_pattern1_keyerror :
    ∀ (row : Row) (v : Val), row.lookup "DeliveryInterval" = some v →
      (row.lookup "DeliveryDate" = none ∨ row.lookup "DeliveryHour" = none) →
      add_datetime_column row = .keyError := by
  intro row v hiv hmiss
  unfold add_datetime_column
  rw [hiv]
  rcases hmiss with hd | hh
  · rw [hd]
    simp
  · rw [hh]
    rcases hd : row.lookup "DeliveryDate" with _ | dv <;> simp

/-- Witness for claim C10: a row with only a `DeliveryInterval` column. -/
theorem C10_pattern1_keyerror_witness :
    add_datetime_column [("DeliveryInterval", Val.num 1)] = .keyError :=
  C10_pattern1_keyerror _ (Val.num 1) (by decide) (Or.inl (by decide))

/-! ## Vintage forecast selector (`src/server/load.py`) -/

/-- A `PostedDatetime` cell: either still the raw upstream representation or
already coerced by `pd.to_datetime`; both denote the same instant (minutes),
but the two states are distinguishable in the frame, which is what the
in-place coercion of line 35 changes. -/
inductive PVal where
  | raw (t : Int)
  | parsed (t : Int)
deriving DecidableEq

/-- `pd.to_datetime` on a `PostedDatetime` cell. -/
def PVal.toDatetime : PVal → PVal
  | .raw t => .parsed t
  | .parsed t => .parsed t

/-- The instant a `PostedDatetime` cell denotes. -/
def PVal.minutes : PVal → Int
  | .raw t => t
  | .parsed t => t

/-- A row of a forecast frame: `DATETIME`, `PostedDatetime`, and the forecast
payload. -/
structure FRow where
  dtm : Int
  posted : PVal
  value : Int
deriving DecidableEq

/-- In-place coercion `df["PostedDatetime"] = pd.to_datetime(...)` at one
row. -/
def coerceRow (r : FRow) : FRow := { r with posted := r.posted.toDatetime }

/-- The key order of `df.sort_values(["DATETIME", "PostedDatetime"])`. -/
def frowLe (a b : FRow) : Prop :=
  a.dtm < b.dtm ∨ (a.dtm = b.dtm ∧ a.posted.minutes ≤ b.posted.minutes)

instance : DecidableRel frowLe := fun a b => by
  unfold frowLe
  infer_instance

instance : IsTotal FRow frowLe where
  total a b := by
    unfold frowLe
    rcases lt_trichotomy a.dtm b.dtm with h | h | h
    · exact Or.inl (Or.inl h)
    · rcases le_total a.posted.minutes b.posted.minutes with h' | h'
      · exact Or.inl (Or.inr ⟨h, h'⟩)
      · exact Or.inr (Or.inr ⟨h.symm, h'⟩)
    · exact Or.inr (Or.inl h)

instance : IsTrans FRow frowLe where
  trans a b c hab hbc := by
    unfold frowLe at hab hbc ⊢
    rcases hab with h1 | ⟨h1, h1'⟩ <;> rcases hbc with h2 | ⟨h2, h2'⟩
    · exact Or.inl (h1.trans h2)
    · exact Or.inl (h2 ▸ h1)
    · exact Or.inl (h1 ▸ h2)
    · exact Or.inr ⟨h1.trans h2, h1'.trans h2'⟩

/-- `groupby("DATETIME").last()` on a frame sorted by `DATETIME`: retain the
last row of each run of equal `DATETIME`. -/
def lastPerDt : List FRow → List FRow
  | [] => []
  | [r] => [r]
  | r :: s :: rest =>
    if r.dtm = s.dtm then lastPerDt (s :: rest) else r :: lastPerDt (s :: rest)

/-- Embedding of `filter_forecast_by_posted` (src/server/load.py lines
18-41), returning `(result, state of the caller's frame after the call)`:
the empty frame short-circuits, otherwise `PostedDatetime` is coerced in
place (so the caller's frame comes back coerced), the frame is sorted by
`(DATETIME, PostedDatetime)` and the last row per `DATETIME` group is
kept. -/
def filter_forecast_by_posted (df : List FRow) : List FRow × List FRow :=
  if df = [] then (df, df)
  else
    (lastPerDt (List.insertionSort frowLe (df.map coerceRow)), df.map coerceRow)

-- Concrete sanity checks of the embedding.
example :
    filter_forecast_by_posted [⟨0, .raw 5, 1⟩, ⟨1, .raw 3, 4⟩, ⟨0, .raw 9, 2⟩] =
      ([⟨0, .parsed 9, 2⟩, ⟨1, .parsed 3, 4⟩],
       [⟨0, .parsed 5, 1⟩, ⟨1, .parsed 3, 4⟩, ⟨0, .parsed 9, 2⟩]) := by
  decide

theorem minutes_toDatetime (p : PVal) : p.toDatetime.minutes = p.minutes := by
  cases p <;> rfl

theorem coerceRow_dtm (r : FRow) : (coerceRow r).dtm = r.dtm := rfl

theorem coerceRow_minutes (r : FRow) :
    (coerceRow r).posted.minutes = r.posted.minutes :=
  minutes_toDatetime r.posted

theorem dtm_le_of_frowLe {a b : FRow} (h : frowLe a b) : a.dtm ≤ b.dtm := by
  rcases h with h | ⟨h, _⟩
  · exact le_of_lt h
  · exact le_of_eq h

/-- Under a sorted head, a head with a strictly different `DATETIME` is
strictly below every `DATETIME` in the tail. -/
theorem dtm_lt_tail {a s : FRow} {rest : List FRow}
    (h1 : ∀ x ∈ s :: rest, frowLe a x) (h2 : List.Pairwise frowLe (s :: rest))
    (hne : a.dtm ≠ s.dtm) : ∀ x ∈ s :: rest, a.dtm < x.dtm := by
  intro x hx
  have hlt : a.dtm < s.dtm :=
    lt_of_le_of_ne (dtm_le_of_frowLe (h1 s (List.mem_cons_self ..))) hne
  rcases List.mem_cons.1 hx with rfl | hx
  · exact hlt
  · exact hlt.trans_le (dtm_le_of_frowLe ((List.pairwise_cons.1 h2).1 x hx))

theorem lastPerDt_sublist : ∀ l, List.Sublist (lastPerDt l) l
  | [] => by simp [lastPerDt]
  | [r] => by simp [lastPerDt]
  | r :: s :: rest => by
    rw [lastPerDt]
    split
    · exact (lastPerDt_sublist (s :: rest)).cons r
    · exact (lastPerDt_sublist (s :: rest)).cons₂ r

theorem mem_dtm_lastPerDt : ∀ l (d : Int), d ∈ l.map FRow.dtm →
    d ∈ (lastPerDt l).map FRow.dtm
  | [] => by simp [lastPerDt]
  | [r] => by simp [lastPerDt]
  | r :: s :: rest => by
    intro d hd
    rw [lastPerDt]
    split
    case isTrue heq =>
      apply mem_dtm_lastPerDt (s :: rest) d
      rcases List.mem_map.1 hd with ⟨x, hx, rfl⟩
      rcases List.mem_cons.1 hx with rfl | hx
      · rw [heq]
        exact List.mem_map.2 ⟨s, List.mem_cons_self .., rfl⟩
      · exact List.mem_map.2 ⟨x, hx, rfl⟩
    case isFalse =>
      rcases List.mem_map.1 hd with ⟨x, hx, rfl⟩
      rcases List.mem_cons.1 hx with rfl | hx
      · simp
      · simp only [List.map_cons, List.mem_cons]
        exact Or.inr (mem_dtm_lastPerDt (s :: rest) x.dtm (List.mem_map.2 ⟨x, hx, rfl⟩))

theorem pairwise_dtm_lt_lastPerDt : ∀ l, List.Pairwise frowLe l →
    List.Pairwise (fun a b : FRow => a.dtm < b.dtm) (lastPerDt l)
  | [] => by simp [lastPerDt]
  | [r] => by simp [lastPerDt]
  | r :: s :: rest => by
    intro h
    rcases List.pairwise_cons.1 h with ⟨h1, h2⟩
    rw [lastPerDt]
    split
    case isTrue heq => exact pairwise_dtm_lt_lastPerDt (s :: rest) h2
    case isFalse hne =>
      refine List.pairwise_cons.2 ⟨?_, pairwise_dtm_lt_lastPerDt (s :: rest) h2⟩
      intro x hx
      exact dtm_lt_tail h1 h2 hne x ((lastPerDt_sublist (s :: rest)).subset hx)

/-- On a `(DATETIME, PostedDatetime)`-sorted frame, every retained row has
the maximum `PostedDatetime` among the rows sharing its `DATETIME`. -/
theorem max_posted_lastPerDt : ∀ l, List.Pairwise frowLe l →
    ∀ r ∈ lastPerDt l, ∀ x ∈ l, x.dtm = r.dtm →
      x.posted.minutes ≤ r.posted.minutes
  | [] => by simp [lastPerDt]
  | [r] => by
    intro _ r' hr' x hx hdt
    rw [lastPerDt] at hr'
    rcases List.mem_cons.1 hr' with rfl | hr'
    · rcases List.mem_cons.1 hx with rfl | hx
      · exact le_refl _
      · simp at hx
    · simp at hr'
  | a :: s :: rest => by
    intro h r hr x hx hdt
    rcases List.pairwise_cons.1 h with ⟨h1, h2⟩
    rw [lastPerDt] at hr
    split at hr
    case isTrue heq =>
      rcases List.mem_cons.1 hx with rfl | hx
      · have hs_le : s.posted.minutes ≤ r.posted.minutes := by
          apply max_posted_lastPerDt (s :: rest) h2 r hr s (List.mem_cons_self ..)
          rw [← heq]
          exact hdt
        have ha_le_s : x.posted.minutes ≤ s.posted.minutes := by
          rcases h1 s (List.mem_cons_self ..) with hlt | ⟨_, hle⟩
          · exact absurd heq (ne_of_lt hlt)
          · exact hle
        exact ha_le_s.trans hs_le
      · exact max_posted_lastPerDt (s :: rest) h2 r hr x hx hdt
    case isFalse hne =>
      rcases List.mem_cons.1 hr with rfl | hrq
      · rcases List.mem_cons.1 hx with rfl | hx
        · exact le_refl _
        · exact absurd hdt (ne_of_gt (dtm_lt_tail h1 h2 hne x hx))
      · rcases List.mem_cons.1 hx with rfl | hx
        · exfalso
          have hrm : r ∈ s :: rest := (lastPerDt_sublist (s :: rest)).subset hrq
          have := dtm_lt_tail h1 h2 hne r hrm
          omega
        · exact max_posted_lastPerDt (s :: rest) h2 r hrq x hx hdt

/-- Claim C1: vintage forecast selection.  If every input row was published
at or before the cutoff (the frame is fetched with `PostedDatetimeTo =
cutoff` applied upstream), the selector returns a frame whose `DATETIME`s
are pairwise distinct and are exactly the distinct `DATETIME`s of the input,
and every retained row carries the maximum `PostedDatetime` among the input
rows sharing its `DATETIME` and not exceeding the cutoff (the maximum is
attained by an input row and bounds all of them). -/
theorem C1_vintage_selection :
    ∀ (df : List FRow) (cutoff : Int),
      (∀ r ∈ df, r.posted.minutes ≤ cutoff) →
      ((filter_forecast_by_posted df).1.map FRow.dtm).Nodup ∧
      (∀ d : Int, d ∈ df.map FRow.dtm ↔
        d ∈ (filter_forecast_by_posted df).1.map FRow.dtm) ∧
      (∀ r ∈ (filter_forecast_by_posted df).1,
        (∃ x ∈ df, x.dtm = r.dtm ∧ x.posted.minutes = r.posted.minutes) ∧
        r.posted.minutes ≤ cutoff ∧
        (∀ x ∈ df, x.dtm = r.dtm → x.posted.minutes ≤ cutoff →
          x.posted.minutes ≤ r.posted.minutes)) := by
  intro df cutoff hcut
  by_cases hdf : df = []
  · subst hdf
    simp [filter_forecast_by_posted]
  · unfold filter_forecast_by_posted
    rw [if_neg hdf]
    simp only []
    have hpair : List.Pairwise frowLe (List.insertionSort frowLe (df.map coerceRow)) :=
      List.sorted_insertionSort frowLe (df.map coerceRow)
    have hmemdf1 : ∀ y, y ∈ List.insertionSort frowLe (df.map coerceRow) ↔
        y ∈ df.map coerceRow :=
      fun y => (List.perm_insertionSort frowLe (df.map coerceRow)).mem_iff
    refine ⟨?_, ?_, ?_⟩
    · exact List.pairwise_map.2
        ((pairwise_dtm_lt_lastPerDt _ hpair).imp (fun h => ne_of_lt h))
    · intro d
      constructor
      · intro hd
        apply mem_dtm_lastPerDt _ d
        rcases List.mem_map.1 hd with ⟨x, hx, rfl⟩
        exact List.mem_map.2
          ⟨coerceRow x, (hmemdf1 _).2 (List.mem_map.2 ⟨x, hx, rfl⟩), rfl⟩
      · intro hd
        rcases List.mem_map.1 hd with ⟨y, hy, rfl⟩
        have hydf1 : y ∈ df.map coerceRow :=
          (hmemdf1 y).1 ((lastPerDt_sublist _).subset hy)
        rcases List.mem_map.1 hydf1 with ⟨x, hx, rfl⟩
        exact List.mem_map.2 ⟨x, hx, rfl⟩
    · intro r hr
      have hrdf1 : r ∈ df.map coerceRow :=
        (hmemdf1 r).1 ((lastPerDt_sublist _).subset hr)
      rcases List.mem_map.1 hrdf1 with ⟨x0, hx0, hx0e⟩
      have hx0dtm : x0.dtm = r.dtm := by rw [← hx0e]; rfl
      have hx0min : x0.posted.minutes = r.posted.minutes := by
        rw [← hx0e]
        exact (coerceRow_minutes x0).symm
      refine ⟨⟨x0, hx0, hx0dtm, hx0min⟩, ?_, ?_⟩
      · rw [← hx0min]
        exact hcut x0 hx0
      · intro x hx hdtm _
        have hxs : coerceRow x ∈ List.insertionSort frowLe (df.map coerceRow) :=
          (hmemdf1 _).2 (List.mem_map.2 ⟨x, hx, rfl⟩)
        have hmax := max_posted_lastPerDt _ hpair r hr (coerceRow x) hxs
          (by rw [coerceRow_dtm]; exact hdtm)
        rw [coerceRow_minutes] at hmax
        exact hmax

/-- Witness for claim C1 at a concrete three-row frame with a duplicated
`DATETIME`. -/
theorem C1_vintage_selection_witness :
    (∀ r ∈ ([⟨0, .raw 5, 1⟩, ⟨1, .raw 3, 4⟩, ⟨0, .raw 9, 2⟩] : List FRow),
        r.posted.minutes ≤ 10) ∧
    (((filter_forecast_by_posted
        [⟨0, .raw 5, 1⟩, ⟨1, .raw 3, 4⟩, ⟨0, .raw 9, 2⟩]).1.map FRow.dtm).Nodup ∧
     (∀ d : Int, d ∈ ([⟨0, .raw 5, 1⟩, ⟨1, .raw 3, 4⟩, ⟨0, .raw 9, 2⟩] :
          List FRow).map FRow.dtm ↔
        d ∈ (filter_forecast_by_posted
          [⟨0, .raw 5, 1⟩, ⟨1, .raw 3, 4⟩, ⟨0, .raw 9, 2⟩]).1.map FRow.dtm) ∧
     (∀ r ∈ (filter_forecast_by_posted
          [⟨0, .raw 5, 1⟩, ⟨1, .raw 3, 4⟩, ⟨0, .raw 9, 2⟩]).1,
        (∃ x ∈ ([⟨0, .raw 5, 1⟩, ⟨1, .raw 3, 4⟩, ⟨0, .raw 9, 2⟩] : List FRow),
          x.dtm = r.dtm ∧ x.posted.minutes = r.posted.minutes) ∧
        r.posted.minutes ≤ 10 ∧
        (∀ x ∈ ([⟨0, .raw 5, 1⟩, ⟨1, .raw 3, 4⟩, ⟨0, .raw 9, 2⟩] : List FRow),
          x.dtm = r.dtm → x.posted.minutes ≤ 10 →
          x.posted.minutes ≤ r.posted.minutes))) :=
  ⟨by decide, C1_vintage_selection _ 10 (by decide)⟩

/-! ## Net load composer (`src/server/load.py`, `get_net_load_forecast`) -/

/-- `left.merge(right, on="DATETIME", how="left")` on keyed tables: every
left row is kept in order; a right row with the same key contributes its
value, a key with no match yields a null (`none`). -/
def mergeLeft {α β : Type} (l : List (Int × α)) (r : List (Int × β)) :
    List (Int × α × Option β) :=
  l.flatMap (fun p =>
    match r.filter (fun q => q.1 == p.1) with
    | [] => [(p.1, p.2, none)]
    | qs => qs.map (fun q => (p.1, p.2, some q.2)))

/-- A composed net-load row: `DATETIME`, the renamed solar and wind
system-wide HSL columns, the median load forecast, and the derived
`Renewables` and `NetLoad` columns (null-valued cells from the left joins are
`none`; a null propagates through the subtraction, while the row-wise pandas
sum skips nulls). -/
structure NetLoadRow where
  dtm : Int
  solar : Int
  wind : Option Int
  median : Option Int
  renewables : Int
  netLoad : Option Int
deriving DecidableEq

/-- Embedding of the composition step of `get_net_load_forecast`
(src/server/load.py lines 263-274): left-join wind then load onto solar by
`DATETIME`, sum the HSL columns into `Renewables` (pandas `sum(axis=1)`
treats a null as 0), and set `NetLoad = MedianLoadForecast - Renewables`. -/
def get_net_load_forecast (solar wind load : List (Int × Int)) :
    List NetLoadRow :=
  (mergeLeft (mergeLeft solar wind) load).map (fun r =>
    let renew := r.2.1.1 + r.2.1.2.getD 0
    { dtm := r.1, solar := r.2.1.1, wind := r.2.1.2, median := r.2.2,
      renewables := renew, netLoad := r.2.2.map (fun m => m - renew) })

-- Concrete sanity checks of the embedding.
example :
    get_net_load_forecast [(0, 3000)] [(0, 7000)] [(0, 50000)] =
      [⟨0, 3000, some 7000, some 50000, 10000, some 40000⟩] := by decide

/-- Claim C7: net-load arithmetic.  In every composed row whose wind and load
cells are present, `Renewables` is the sum of the solar and wind system-wide
HSL forecasts and `NetLoad` is `MedianLoadForecast - Renewables`; in
particular the row composed from `MedianLoadForecast = 50000`,
`SolarHSLSystemWide = 3000`, `WindHSLSystemWide = 7000` has
`Renewables = 10000` and `NetLoad = 40000`. -/
theorem C7_net_load_arithmetic :
    (∀ (solar wind load : List (Int × Int)),
      ∀ r ∈ get_net_load_forecast solar wind load, ∀ w m : Int,
        r.wind = some w → r.median = some m →
        r.renewables = r.solar + w ∧ r.netLoad = some (m - r.renewables)) ∧
    get_net_load_forecast [(0, 3000)] [(0, 7000)] [(0, 50000)] =
      [⟨0, 3000, some 7000, some 50000, 10000, some 40000⟩] := by
  constructor
  · intro solar wind load r hr w m hw hm
    unfold get_net_load_forecast at hr
    rcases List.mem_map.1 hr with ⟨p, _, rfl⟩
    obtain ⟨dt, ⟨sv, wv⟩, mv⟩ := p
    have hw' : wv = some w := hw
    have hm' : mv = some m := hm
    subst hw'
    subst hm'
    exact ⟨rfl, rfl⟩
  · decide

/-- Witness for claim C7 at the spec's concrete row. -/
theorem C7_net_load_arithmetic_witness :
    ∀ r ∈ get_net_load_forecast [(0, 3000)] [(0, 7000)] [(0, 50000)],
      r.renewables = r.solar + 7000 ∧ r.netLoad = some (50000 - r.renewables) := by
  intro r hr
  have hre : r = ⟨0, 3000, some 7000, some 50000, 10000, some 40000⟩ := by
    rw [C7_net_load_arithmetic.2] at hr
    simpa using hr
  refine C7_net_load_arithmetic.1 _ _ _ r hr 7000 50000 ?_ ?_ <;>
    rw [hre]

/-! ## Rolling split generator (`src/server/forecasting.py`,
`create_rolling_splits`) -/

/-- A cross-validation data row: `DATETIME` (minutes), the `Date` cell
(days), and the `NetLoad` and `SystemLambda` payload columns used by the CV
loop. -/
structure CVRow where
  dtm : Int
  dateCell : Int
  netLoad : Int
  lam : Int
deriving DecidableEq

/-- A cross-validation frame: whether a `Date` column is present, and the
rows.  When `hasDate` is false the `dateCell` fields are meaningless until
`create_rolling_splits` derives them in place from `DATETIME`. -/
structure CVTable where
  hasDate : Bool
  rows : List CVRow
deriving DecidableEq

/-- `pd.to_datetime(dtm).dt.date` with minute timestamps: the calendar day
index. -/
def toDate (m : Int) : Int := m / 1440

/-- Lines 198-199: `if "Date" not in data.columns: data["Date"] = ...` —
this writes the derived column into the caller's frame in place. -/
def addDateColumn (t : CVTable) : CVTable :=
  if t.hasDate then t
  else ⟨true, t.rows.map (fun r => { r with dateCell := toDate r.dtm })⟩

/-- `sorted(data["Date"].unique())` (line 201). -/
def sortedUnique (l : List Int) : List Int :=
  List.insertionSort (· ≤ ·) l.dedup

/-- The sorted distinct calendar dates a frame's splits are built from. -/
def udOf (t : CVTable) : List Int :=
  sortedUnique (t.rows.map (fun r => r.dateCell))

/-- One iteration of the split loop (lines 213-228) at date index `i`:
test date `unique_dates[i]`, expanding training window `unique_dates[:i]` or
fixed window `unique_dates[max(0, i-k):i]` (here `i ≥ k`, so Nat subtraction
matches Python's `max`), row selection by date, and the non-empty guard. -/
def splitGen (rows : List CVRow) (ud : List Int) (k : Nat) (expanding : Bool)
    (i : Nat) : Option (List CVRow × List CVRow × Int) :=
  let test_date := ud.getD i 0
  let train_dates := if expanding then ud.take i else (ud.drop (i - k)).take k
  let train_data := rows.filter (fun r => train_dates.contains r.dateCell)
  let test_data := rows.filter (fun r => r.dateCell == test_date)
  if 0 < train_data.length ∧ 0 < test_data.length then
    some (train_data, test_data, test_date)
  else none

/-- Embedding of `create_rolling_splits` (src/server/forecasting.py lines
173-230), returning `(result, state of the caller's frame after the call)`:
the `Date` column is added in place when missing, then the insufficient-data
check (`ValueError` when the number of distinct dates does not exceed
`initial_training_days`), then one candidate split per date index from
`initial_training_days` up to the last. -/
def create_rolling_splits (t0 : CVTable) (k : Nat) (expanding : Bool) :
    Except String (List (List CVRow × List CVRow × Int)) × CVTable :=
  let t := addDateColumn t0
  (if (udOf t).length ≤ k then
    .error ("Not enough days in data. Need more than " ++ toString k ++
      " days, but only have " ++ toString (udOf t).length ++ " days.")
  else
    .ok ((List.range' k ((udOf t).length - k)).filterMap
      (splitGen t.rows (udOf t) k expanding)), t)

/-- The number of distinct calendar dates of a frame (after date
derivation). -/
def numDistinctDates (t : CVTable) : Nat := (udOf (addDateColumn t)).length

instance {ε α : Type} [DecidableEq ε] [DecidableEq α] :
    DecidableEq (Except ε α) := fun a b =>
  match a, b with
  | .error e, .error f => decidable_of_iff (e = f) (by simp)
  | .error _, .ok _ => .isFalse (by simp)
  | .ok _, .error _ => .isFalse (by simp)
  | .ok a, .ok b => decidable_of_iff (a = b) (by simp)

-- Concrete sanity checks of the embedding.
example :
    (create_rolling_splits ⟨true, [⟨0, 0, 10, 20⟩, ⟨1440, 1, 11, 21⟩]⟩ 1 true).1 =
      .ok [([⟨0, 0, 10, 20⟩], [⟨1440, 1, 11, 21⟩], 1)] := by decide
example :
    (create_rolling_splits ⟨true, [⟨0, 0, 10, 20⟩]⟩ 1 true).1 =
      .error "Not enough days in data. Need more than 1 days, but only have 1 days." := by
  decide

/-- Claim C6: the split generator requires strictly more distinct calendar
dates than `initial_training_days`: it returns successfully iff the count of
distinct dates exceeds `initial_training_days`, and raises the
insufficient-data `ValueError` otherwise — in particular on 5 distinct dates
with `initial_training_days = 10`. -/
theorem C6_insufficient_data :
    (∀ (t : CVTable) (k : Nat) (e : Bool),
      (create_rolling_splits t k e).1.isOk = true ↔ k < numDistinctDates t) ∧
    (create_rolling_splits
        ⟨true, [⟨0, 0, 0, 0⟩, ⟨1440, 1, 0, 0⟩, ⟨2880, 2, 0, 0⟩,
                ⟨4320, 3, 0, 0⟩, ⟨5760, 4, 0, 0⟩]⟩ 10 true).1 =
      .error "Not enough days in data. Need more than 10 days, but only have 5 days." ∧
    numDistinctDates
      ⟨true, [⟨0, 0, 0, 0⟩, ⟨1440, 1, 0, 0⟩, ⟨2880, 2, 0, 0⟩,
              ⟨4320, 3, 0, 0⟩, ⟨5760, 4, 0, 0⟩]⟩ = 5 := by
  refine ⟨?_, by decide, by decide⟩
  intro t k e
  unfold create_rolling_splits numDistinctDates
  dsimp only
  by_cases h : (udOf (addDateColumn t)).length ≤ k
  · rw [if_pos h]
    simp only [Except.isOk, Except.toBool]
    constructor
    · intro hh
      exact absurd hh (by simp)
    · intro hh
      omega
  · rw [if_neg h]
    simp only [Except.isOk, Except.toBool]
    constructor
    · intro _
      omega
    · intro _
      trivial

/-! ### Index lemmas for the split windows -/

theorem pairwise_lt_sortedUnique (l : List Int) :
    List.Pairwise (· < ·) (sortedUnique l) := by
  have hs : List.Pairwise (· ≤ ·) (List.insertionSort (· ≤ ·) l.dedup) :=
    List.sorted_insertionSort (· ≤ ·) l.dedup
  have hn : (List.insertionSort (· ≤ ·) l.dedup).Nodup :=
    ((List.perm_insertionSort (· ≤ ·) l.dedup).nodup_iff).2 (List.nodup_dedup l)
  exact (hs.and hn).imp (fun h => lt_of_le_of_ne h.1 h.2)

theorem getD_eq_getElem_int {l : List Int} {i : Nat} (h : i < l.length) :
    l.getD i 0 = l[i] := by
  rw [List.getD_eq_getElem?_getD, List.getElem?_eq_getElem h]
  rfl

theorem mem_take_idx {l : List Int} {n : Nat} {a : Int} (h : a ∈ l.take n) :
    ∃ j, j < n ∧ ∃ hj : j < l.length, l[j] = a := by
  rcases List.mem_iff_getElem.1 h with ⟨j, hj, hja⟩
  have hjn : j < n := lt_of_lt_of_le hj (List.length_take_le n l)
  have hjl : j < l.length := lt_of_lt_of_le hj (List.length_take_le' n l)
  rw [List.getElem_take] at hja
  exact ⟨j, hjn, hjl, hja⟩

theorem mem_window_idx {l : List Int} {m k : Nat} {a : Int}
    (h : a ∈ (l.drop m).take k) :
    ∃ j, m ≤ j ∧ j < m + k ∧ ∃ hj : j < l.length, l[j] = a := by
  rcases List.mem_iff_getElem.1 h with ⟨j, hj, hja⟩
  have hjk : j < k := lt_of_lt_of_le hj (List.length_take_le ..)
  have hjd : j < (l.drop m).length := lt_of_lt_of_le hj (List.length_take_le' ..)
  rw [List.length_drop] at hjd
  have hml : m + j < l.length := by omega
  rw [List.getElem_take, List.getElem_drop] at hja
  exact ⟨m + j, by omega, by omega, hml, hja⟩

/-- Train rows date-precede test rows whenever every training date sits at an
index before the test index in the strictly sorted date list. -/
theorem train_lt_test {rows : List CVRow} {ud : List Int} {i : Nat}
    (hin : i < ud.length) (hpw : List.Pairwise (· < ·) ud) {tds : List Int}
    (htds : ∀ a ∈ tds, ∃ j, j < i ∧ ∃ hj : j < ud.length, ud[j] = a) :
    ∀ r ∈ rows.filter (fun r => tds.contains r.dateCell),
      ∀ s ∈ rows.filter (fun r => r.dateCell == ud.getD i 0),
        r.dateCell < s.dateCell := by
  intro r hr s hs
  have hrp := (List.mem_filter.1 hr).2
  have hsp := (List.mem_filter.1 hs).2
  have hrmem : r.dateCell ∈ tds := List.elem_iff.1 hrp
  have hse : s.dateCell = ud.getD i 0 := eq_of_beq hsp
  rcases htds _ hrmem with ⟨j, hji, hj, hja⟩
  have hlt : ud[j] < ud[i] := List.pairwise_iff_getElem.1 hpw j i hj hin hji
  rw [hse, getD_eq_getElem_int hin, ← hja]
  exact hlt

/-- Claim C5: split non-leakage.  In every emitted split, every training
row's calendar date strictly precedes every test row's date (in both window
modes, which gives `max(train dates) < min(test dates)`), every test row's
date equals the split's test date, and in fixed-window mode the training set
consists exactly of the rows whose date lies among the `initial_training_days`
distinct dates immediately preceding the test date in the sorted date list (a
window of exactly `initial_training_days` dates). -/
theorem C5_split_non_leakage :
    ∀ (t : CVTable) (k : Nat) (e : Bool)
      (splits : List (List CVRow × List CVRow × Int)),
      (create_rolling_splits t k e).1 = .ok splits →
      ∀ tr te td, (tr, te, td) ∈ splits →
        (∀ r ∈ tr, ∀ s ∈ te, r.dateCell < s.dateCell) ∧
        (∀ s ∈ te, s.dateCell = td) ∧
        (e = false →
          ∃ i, k ≤ i ∧ i < (udOf (addDateColumn t)).length ∧
            td = (udOf (addDateColumn t)).getD i 0 ∧
            tr = (addDateColumn t).rows.filter (fun r =>
              (((udOf (addDateColumn t)).drop (i - k)).take k).contains r.dateCell) ∧
            (((udOf (addDateColumn t)).drop (i - k)).take k).length = k) := by
  intro t k e splits hok tr te td hmem
  unfold create_rolling_splits at hok
  dsimp only at hok
  by_cases hlen : (udOf (addDateColumn t)).length ≤ k
  · rw [if_pos hlen] at hok
    exact absurd hok (by simp)
  · rw [if_neg hlen] at hok
    injection hok with hok
    subst hok
    rcases List.mem_filterMap.1 hmem with ⟨i, hirange, hgen⟩
    rw [List.mem_range'_1] at hirange
    have hki : k ≤ i := hirange.1
    have hin : i < (udOf (addDateColumn t)).length := by omega
    unfold splitGen at hgen
    dsimp only at hgen
    cases e with
    | true =>
      rw [if_pos rfl] at hgen
      split at hgen
      case _ =>
        injection hgen with hgen
        rw [Prod.mk.injEq, Prod.mk.injEq] at hgen
        obtain ⟨h1, h2, h3⟩ := hgen
        subst h1
        subst h2
        subst h3
        refine ⟨?_, ?_, ?_⟩
        · apply train_lt_test hin (pairwise_lt_sortedUnique _)
          intro a ha
          exact mem_take_idx ha
        · intro s hs
          exact eq_of_beq (List.mem_filter.1 hs).2
        · intro he
          simp at he
      case _ => exact absurd hgen (by simp)
    | false =>
      rw [if_neg (show ¬((false : Bool) = true) by simp)] at hgen
      split at hgen
      case _ =>
        injection hgen with hgen
        rw [Prod.mk.injEq, Prod.mk.injEq] at hgen
        obtain ⟨h1, h2, h3⟩ := hgen
        subst h1
        subst h2
        subst h3
        refine ⟨?_, ?_, ?_⟩
        · apply train_lt_test hin (pairwise_lt_sortedUnique _)
          intro a ha
          rcases mem_window_idx ha with ⟨j, hj1, hj2, hj, hja⟩
          exact ⟨j, by omega, hj, hja⟩
        · intro s hs
          exact eq_of_beq (List.mem_filter.1 hs).2
        · intro _
          refine ⟨i, hki, hin, rfl, rfl, ?_⟩
          simp only [List.length_take, List.length_drop]
          omega
      case _ => exact absurd hgen (by simp)

/-- Witness for claim C5: a three-date frame split with
`initial_training_days = 1` in fixed-window mode; the theorem is applied at
the first emitted split. -/
theorem C5_split_non_leakage_witness :
    (create_rolling_splits
        ⟨true, [⟨0, 0, 1, 2⟩, ⟨1440, 1, 3, 4⟩, ⟨2880, 2, 5, 6⟩]⟩ 1 false).1 =
      .ok [([⟨0, 0, 1, 2⟩], [⟨1440, 1, 3, 4⟩], 1),
           ([⟨1440, 1, 3, 4⟩], [⟨2880, 2, 5, 6⟩], 2)] ∧
    ((∀ r ∈ ([⟨0, 0, 1, 2⟩] : List CVRow), ∀ s ∈ ([⟨1440, 1, 3, 4⟩] : List CVRow),
        r.dateCell < s.dateCell) ∧
     (∀ s ∈ ([⟨1440, 1, 3, 4⟩] : List CVRow), s.dateCell = 1) ∧
     (false = false →
       ∃ i, 1 ≤ i ∧
         i < (udOf (addDateColumn
           ⟨true, [⟨0, 0, 1, 2⟩, ⟨1440, 1, 3, 4⟩, ⟨2880, 2, 5, 6⟩]⟩)).length ∧
         (1 : Int) = (udOf (addDateColumn
           ⟨true, [⟨0, 0, 1, 2⟩, ⟨1440, 1, 3, 4⟩, ⟨2880, 2, 5, 6⟩]⟩)).getD i 0 ∧
         [⟨0, 0, 1, 2⟩] = (addDateColumn
           ⟨true, [⟨0, 0, 1, 2⟩, ⟨1440, 1, 3, 4⟩, ⟨2880, 2, 5, 6⟩]⟩).rows.filter
             (fun r => (((udOf (addDateColumn
               ⟨true, [⟨0, 0, 1, 2⟩, ⟨1440, 1, 3, 4⟩, ⟨2880, 2, 5, 6⟩]⟩)).drop
                 (i - 1)).take 1).contains r.dateCell) ∧
         (((udOf (addDateColumn
           ⟨true, [⟨0, 0, 1, 2⟩, ⟨1440, 1, 3, 4⟩, ⟨2880, 2, 5, 6⟩]⟩)).drop
             (i - 1)).take 1).length = 1)) :=
  ⟨by decide,
   C5_split_non_leakage ⟨true, [⟨0, 0, 1, 2⟩, ⟨1440, 1, 3, 4⟩, ⟨2880, 2, 5, 6⟩]⟩
     1 false
     [([⟨0, 0, 1, 2⟩], [⟨1440, 1, 3, 4⟩], 1), ([⟨1440, 1, 3, 4⟩], [⟨2880, 2, 5, 6⟩], 2)]
     (by decide) [⟨0, 0, 1, 2⟩] [⟨1440, 1, 3, 4⟩] 1 (by decide)⟩

/-! ## Rolling-CV loop (`src/server/forecasting.py`, `rolling_forecast_cv`,
lines 318-413).  The regression is the external fit/predict collaborator; it
is a parameter `fp` that either returns the test-set predictions of a split
or raises.  Metric floats are modelled as exact rationals; `RMSE` is
represented by its square `MSE` (the square root is monotone and irrelevant
to which rows enter the aggregate). -/

/-- One predicted test row: `DATETIME`, actual `SystemLambda`, predicted
value. -/
structure PredRow where
  dtm : Int
  actual : Int
  predicted : Int
deriving DecidableEq

/-- Mean absolute error over a prediction frame. -/
def ratMAE (l : List PredRow) : Rat :=
  (l.map (fun p => |((p.actual : Rat)) - (p.predicted : Rat)|)).sum / (l.length : Rat)

/-- Mean squared error over a prediction frame (`RMSE` squared). -/
def ratMSE (l : List PredRow) : Rat :=
  (l.map (fun p => ((p.actual : Rat) - (p.predicted : Rat)) ^ 2)).sum / (l.length : Rat)

/-- Coefficient of determination over a prediction frame. -/
def ratR2 (l : List PredRow) : Rat :=
  1 - (l.map (fun p => ((p.actual : Rat) - (p.predicted : Rat)) ^ 2)).sum /
      (l.map (fun p =>
        ((p.actual : Rat) -
          (l.map (fun q => (q.actual : Rat))).sum / (l.length : Rat)) ^ 2)).sum

/-- The dictionary returned by `rolling_forecast_cv`: the concatenated
predictions, the per-day metric dates, and the aggregate metrics. -/
structure CVResult where
  predictions : List PredRow
  dailyDates : List Int
  mae : Rat
  mse : Rat
  r2 : Rat
deriving DecidableEq

/-- The per-split try/except loop and final aggregation (lines 323-388): a
split whose fit/predict raises is logged and skipped (`continue`), the
successful splits contribute their test date to `daily_metrics` and their
predictions to the global list, and `pd.concat` of the collected predictions
raises `ValueError: No objects to concatenate` when every split failed. -/
def rolling_cv_loop (splits : List (List CVRow × List CVRow × Int))
    (fp : List CVRow × List CVRow × Int → Except String (List PredRow)) :
    Except String CVResult :=
  let results := splits.filterMap (fun s =>
    match fp s with
    | .ok preds => some (s.2.2, preds)
    | .error _ => none)
  if results = [] then .error "No objects to concatenate"
  else
    .ok { predictions := (results.map (fun x => x.2)).flatten,
          dailyDates := results.map (fun x => x.1),
          mae := ratMAE ((results.map (fun x => x.2)).flatten),
          mse := ratMSE ((results.map (fun x => x.2)).flatten),
          r2 := ratR2 ((results.map (fun x => x.2)).flatten) }

/-- Embedding of `rolling_forecast_cv` after the data fetch: build the
rolling splits, then run the per-split loop. -/
def rolling_forecast_cv (t : CVTable) (k : Nat) (e : Bool)
    (fp : List CVRow × List CVRow × Int → Except String (List PredRow)) :
    Except String CVResult :=
  match (create_rolling_splits t k e).1 with
  | .error msg => .error msg
  | .ok splits => rolling_cv_loop splits fp

/-- The collected `(test_date, predictions)` pairs are exactly the
successful splits in order. -/
theorem filterMap_fp_eq
    (fp : List CVRow × List CVRow × Int → Except String (List PredRow)) :
    ∀ splits : List (List CVRow × List CVRow × Int),
      splits.filterMap (fun s =>
        match fp s with
        | .ok preds => some (s.2.2, preds)
        | .error _ => none) =
      (splits.filter (fun s => (fp s).isOk)).map
        (fun s => (s.2.2, (fp s).toOption.getD [])) := by
  intro splits
  induction splits with
  | nil => rfl
  | cons a l ih =>
    rw [List.filterMap_cons, List.filter_cons]
    cases hfa : fp a with
    | ok preds =>
      rw [if_pos (show (Except.ok preds : Except String (List PredRow)).isOk = true
        from rfl)]
      rw [List.map_cons, ← ih, hfa]
      rfl
    | error err =>
      rw [if_neg (show ¬(Except.error err : Except String (List PredRow)).isOk = true
        by rw [show (Except.error err : Except String (List PredRow)).isOk = false
          from rfl]; simp)]
      exact ih

/-- The test date of a generated split is the date at its index. -/
theorem splitGen_td {rows : List CVRow} {ud : List Int} {k : Nat} {e : Bool}
    {i : Nat} {sp : List CVRow × List CVRow × Int}
    (h : splitGen rows ud k e i = some sp) : sp.2.2 = ud.getD i 0 := by
  unfold splitGen at h
  dsimp only at h
  cases e with
  | true =>
    rw [if_pos rfl] at h
    split at h
    case _ =>
      injection h with h
      rw [← h]
    case _ => exact absurd h (by simp)
  | false =>
    rw [if_neg (show ¬((false : Bool) = true) by simp)] at h
    split at h
    case _ =>
      injection h with h
      rw [← h]
    case _ => exact absurd h (by simp)

/-- Distinct splits of one run have strictly increasing test dates. -/
theorem pairwise_td_of_ok {t : CVTable} {k : Nat} {e : Bool}
    {splits : List (List CVRow × List CVRow × Int)}
    (hok : (create_rolling_splits t k e).1 = .ok splits) :
    List.Pairwise (fun a b : List CVRow × List CVRow × Int =>
      a.2.2 < b.2.2) splits := by
  unfold create_rolling_splits at hok
  dsimp only at hok
  by_cases hlen : (udOf (addDateColumn t)).length ≤ k
  · rw [if_pos hlen] at hok
    exact absurd hok (by simp)
  · rw [if_neg hlen] at hok
    injection hok with hok
    subst hok
    have hp0 : List.Pairwise (· < ·)
        (List.range' k ((udOf (addDateColumn t)).length - k)) :=
      List.pairwise_lt_range' k ((udOf (addDateColumn t)).length - k)
    have hp1 := List.Pairwise.and_mem.1 hp0
    refine List.Pairwise.filterMap _ ?_ hp1
    intro i j hij b hb b' hb'
    rw [splitGen_td hb, splitGen_td hb']
    rcases hij with ⟨hi, hj, hlt⟩
    rw [List.mem_range'_1] at hi hj
    have hi' : i < (udOf (addDateColumn t)).length := by omega
    have hj' : j < (udOf (addDateColumn t)).length := by omega
    rw [getD_eq_getElem_int hi', getD_eq_getElem_int hj']
    exact List.pairwise_iff_getElem.1 (pairwise_lt_sortedUnique _) i j hi' hj' hlt

/-- Claim C9 (counterexample): when every split's fit/predict raises, the
per-split errors are not contained: the final `pd.concat` of the collected
predictions has nothing to concatenate and the whole run aborts with a
`ValueError` instead of returning aggregates, falsifying the claim as
stated. -/
theorem C9_per_split_failure_counterexample :
    rolling_forecast_cv ⟨true, [⟨0, 0, 10, 20⟩, ⟨1440, 1, 11, 21⟩]⟩ 1 true
      (fun _ => .error "fit failed") = .error "No objects to concatenate" := by
  rfl

/-- Claim C9 (amended): provided at least one split's fit/predict succeeds,
every failing split is skipped and excluded from the per-split daily metrics
and from the concatenated predictions over which the aggregate MAE, MSE
(squared RMSE) and R-squared are computed, and the run returns successfully;
if every split fails, the final concatenation raises and the run aborts (see
the counterexample). -/
theorem C9_per_split_failure_amended :
    ∀ (t : CVTable) (k : Nat) (e : Bool)
      (fp : List CVRow × List CVRow × Int → Except String (List PredRow))
      (splits : List (List CVRow × List CVRow × Int)),
      (create_rolling_splits t k e).1 = .ok splits →
      (∃ s ∈ splits, (fp s).isOk = true) →
      ∃ res, rolling_forecast_cv t k e fp = .ok res ∧
        res.dailyDates = (splits.filter (fun s => (fp s).isOk)).map
          (fun s => s.2.2) ∧
        res.predictions = ((splits.filter (fun s => (fp s).isOk)).map
          (fun s => (fp s).toOption.getD [])).flatten ∧
        res.mae = ratMAE res.predictions ∧
        res.mse = ratMSE res.predictions ∧
        res.r2 = ratR2 res.predictions ∧
        (∀ s ∈ splits, (fp s).isOk = false → s.2.2 ∉ res.dailyDates) := by
  intro t k e fp splits hok hex
  have hcv : rolling_forecast_cv t k e fp = rolling_cv_loop splits fp := by
    unfold rolling_forecast_cv
    rw [hok]
  have hfm := filterMap_fp_eq fp splits
  have hfilne : splits.filter (fun s => (fp s).isOk) ≠ [] := by
    rcases hex with ⟨s, hs, hsok⟩
    intro hnil
    have hmem : s ∈ splits.filter (fun s => (fp s).isOk) :=
      List.mem_filter.2 ⟨hs, hsok⟩
    rw [hnil] at hmem
    simp at hmem
  have hresne : (splits.filterMap (fun s =>
      match fp s with
      | .ok preds => some (s.2.2, preds)
      | .error _ => none)) ≠ [] := by
    rw [hfm]
    simp only [ne_eq, List.map_eq_nil_iff]
    exact hfilne
  rw [hcv]
  unfold rolling_cv_loop
  dsimp only
  rw [if_neg hresne]
  refine ⟨_, rfl, ?_, ?_, rfl, rfl, rfl, ?_⟩
  · dsimp only
    rw [hfm, List.map_map]
    rfl
  · dsimp only
    rw [hfm, List.map_map]
    rfl
  · intro s hs hfail hmem
    dsimp only at hmem
    rw [hfm, List.map_map] at hmem
    rcases List.mem_map.1 hmem with ⟨s', hs', htd⟩
    have hs'mem : s' ∈ splits := (List.mem_filter.1 hs').1
    have hs'ok : (fp s').isOk = true := (List.mem_filter.1 hs').2
    have hneq : s' ≠ s := by
      intro h
      rw [h, hfail] at hs'ok
      exact Bool.false_ne_true hs'ok
    have hpw : List.Pairwise (fun a b : List CVRow × List CVRow × Int =>
        a.2.2 ≠ b.2.2) splits :=
      (pairwise_td_of_ok hok).imp (fun h => ne_of_lt h)
    have htd' : s'.2.2 = s.2.2 := htd
    exact (hpw.forall (fun _ _ h => Ne.symm h) hs'mem hs hneq) htd'

/-- Witness for the amended claim C9: a three-date run where the first split
fails and the second succeeds. -/
theorem C9_per_split_failure_amended_witness :
    ∃ res,
      rolling_forecast_cv
        ⟨true, [⟨0, 0, 10, 20⟩, ⟨1440, 1, 11, 21⟩, ⟨2880, 2, 12, 22⟩]⟩ 1 true
        (fun s => if s.2.2 = 1 then .error "boom" else .ok [⟨2880, 22, 19⟩]) =
        .ok res ∧
      res.dailyDates =
        (([([⟨0, 0, 10, 20⟩], [⟨1440, 1, 11, 21⟩], (1 : Int)),
           ([⟨0, 0, 10, 20⟩, ⟨1440, 1, 11, 21⟩], [⟨2880, 2, 12, 22⟩], 2)] :
            List (List CVRow × List CVRow × Int)).filter
          (fun s => ((fun s : List CVRow × List CVRow × Int =>
            if s.2.2 = 1 then (.error "boom" : Except String (List PredRow))
            else .ok [⟨2880, 22, 19⟩]) s).isOk)).map (fun s => s.2.2) ∧
      res.predictions =
        ((([([⟨0, 0, 10, 20⟩], [⟨1440, 1, 11, 21⟩], (1 : Int)),
            ([⟨0, 0, 10, 20⟩, ⟨1440, 1, 11, 21⟩], [⟨2880, 2, 12, 22⟩], 2)] :
             List (List CVRow × List CVRow × Int)).filter
          (fun s => ((fun s : List CVRow × List CVRow × Int =>
            if s.2.2 = 1 then (.error "boom" : Except String (List PredRow))
            else .ok [⟨2880, 22, 19⟩]) s).isOk)).map
          (fun s => ((fun s : List CVRow × List CVRow × Int =>
            if s.2.2 = 1 then (.error "boom" : Except String (List PredRow))
            else .ok [⟨2880, 22, 19⟩]) s).toOption.getD [])).flatten ∧
      res.mae = ratMAE res.predictions ∧
      res.mse = ratMSE res.predictions ∧
      res.r2 = ratR2 res.predictions ∧
      (∀ s ∈ ([([⟨0, 0, 10, 20⟩], [⟨1440, 1, 11, 21⟩], (1 : Int)),
               ([⟨0, 0, 10, 20⟩, ⟨1440, 1, 11, 21⟩], [⟨2880, 2, 12, 22⟩], 2)] :
                List (List CVRow × List CVRow × Int)),
        ((fun s : List CVRow × List CVRow × Int =>
          if s.2.2 = 1 then (.error "boom" : Except String (List PredRow))
          else .ok [⟨2880, 22, 19⟩]) s).isOk = false →
          s.2.2 ∉ res.dailyDates) :=
  C9_per_split_failure_amended
    ⟨true, [⟨0, 0, 10, 20⟩, ⟨1440, 1, 11, 21⟩, ⟨2880, 2, 12, 22⟩]⟩ 1 true
    (fun s => if s.2.2 = 1 then .error "boom" else .ok [⟨2880, 22, 19⟩])
    [([⟨0, 0, 10, 20⟩], [⟨1440, 1, 11, 21⟩], 1),
     ([⟨0, 0, 10, 20⟩, ⟨1440, 1, 11, 21⟩], [⟨2880, 2, 12, 22⟩], 2)]
    (by decide) (by decide)

/-! ## Frame effects of the core operations (claim C8) -/

/-- `normalize_column_names` copies its frame (`df = df.copy()`, line 34)
before touching the column names, so its state version returns the caller's
column list untouched. -/
def normalize_column_names_state (cols : List (List Char)) :
    List (List Char) × List (List Char) :=
  (normalize_column_names cols, cols)

/-- Claim C8 (counterexample): neither `filter_forecast_by_posted` nor
`create_rolling_splits` is pure in its input frame.  The former coerces the
`PostedDatetime` column in place (line 35), the latter writes a `Date`
column into the caller's frame when absent (lines 198-199). -/
theorem C8_purity_counterexample :
    (filter_forecast_by_posted [⟨0, .raw 5, 1⟩]).2 ≠ [⟨0, PVal.raw 5, 1⟩] ∧
    (create_rolling_splits ⟨false, [⟨0, 7, 0, 0⟩]⟩ 1 true).2 ≠
      ⟨false, [⟨0, 7, 0, 0⟩]⟩ := by
  decide

/-- Claim C8 (amended): `normalize_column_names` leaves its input unchanged;
`filter_forecast_by_posted` mutates its nonempty input exactly by coercing
`PostedDatetime` in place (and leaves it unchanged when that column is
already datetime-typed); `create_rolling_splits` mutates its input exactly by
adding the derived `Date` column when missing (and leaves it unchanged when
a `Date` column is present). -/
theorem C8_purity_amended :
    (∀ cols, (normalize_column_names_state cols).2 = cols) ∧
    (∀ df : List FRow, df ≠ [] →
      (filter_forecast_by_posted df).2 = df.map coerceRow) ∧
    (∀ df : List FRow, (∀ r ∈ df, r.posted.toDatetime = r.posted) →
      (filter_forecast_by_posted df).2 = df) ∧
    (∀ (t : CVTable) (k : Nat) (e : Bool),
      (create_rolling_splits t k e).2 = addDateColumn t) ∧
    (∀ (t : CVTable) (k : Nat) (e : Bool), t.hasDate = true →
      (create_rolling_splits t k e).2 = t) := by
  refine ⟨fun cols => rfl, ?_, ?_, fun t k e => rfl, ?_⟩
  · intro df hne
    unfold filter_forecast_by_posted
    rw [if_neg hne]
  · intro df hparsed
    by_cases hne : df = []
    · subst hne
      rfl
    · unfold filter_forecast_by_posted
      rw [if_neg hne]
      exact map_id_of df (fun r hr => by
        unfold coerceRow
        rw [hparsed r hr])
  · intro t k e ht
    have : addDateColumn t = t := by
      unfold addDateColumn
      rw [if_pos ht]
    rw [show (create_rolling_splits t k e).2 = addDateColumn t from rfl, this]

/-- Witness for the amended claim C8 at concrete frames. -/
theorem C8_purity_amended_witness :
    (filter_forecast_by_posted [⟨0, .raw 5, 1⟩]).2 =
      [⟨0, .raw 5, 1⟩].map coerceRow ∧
    (filter_forecast_by_posted [⟨0, .parsed 5, 1⟩]).2 = [⟨0, .parsed 5, 1⟩] ∧
    (create_rolling_splits ⟨true, [⟨0, 7, 0, 0⟩]⟩ 1 true).2 =
      ⟨true, [⟨0, 7, 0, 0⟩]⟩ :=
  ⟨C8_purity_amended.2.1 [⟨0, .raw 5, 1⟩] (by decide),
   C8_purity_amended.2.2.1 [⟨0, .parsed 5, 1⟩] (by decide),
   C8_purity_amended.2.2.2.2 ⟨true, [⟨0, 7, 0, 0⟩]⟩ 1 true (by decide)⟩

end Ercot
